import Mathlib

/-!
Shallow embedding of the message-channel core of `src/node_messaging.h`.

The `AtomicQueue<T>` implementation is fully inline in the header and is
embedded node-for-node: the heap is made explicit as an association list
from allocation ids to nodes, the two cursors (`write_head_`, `read_head_`)
become `Option Nat` node ids, and each operation performs exactly the
loads, stores and compare-and-swaps of the source, in program order.  The
claims below concern sequential (single-producer, single-consumer,
quiescent) executions, so each atomic instruction is a plain state update.

The `Message` / `MessagePortData` / `MessagePort` member functions are only
declared in the header (their bodies live in `node_messaging.cc`, which is
not part of the sources here); those operations are modelled from the
specification text, as indicated on each definition.
-/

namespace NodeMessaging

/-- A heap node of `AtomicQueue<T>`: `std::atomic<Node*> next` plus `T item`
(node_messaging.h lines 23–26).  `next = none` models a null pointer. -/
structure QNode (T : Type) where
  next : Option Nat
  item : T
deriving DecidableEq

/-- State of `AtomicQueue<T>` (node_messaging.h lines 20–68): the allocated
nodes (an explicit heap keyed by allocation id), the producer cursor
`write_head_`, the consumer cursor `read_head_` and the `size_` counter.
`next_id` is the allocator: each `new Node` takes a fresh id. -/
@[ext]
structure AtomicQueue (T : Type) where
  nodes : List (Nat × QNode T)
  write_head_ : Option Nat
  read_head_ : Option Nat
  size_ : Nat
  next_id : Nat
deriving DecidableEq

/-- The default-constructed queue: both cursors null, no nodes, size 0. -/
def AtomicQueue.init (T : Type) : AtomicQueue T :=
  { nodes := [], write_head_ := none, read_head_ := none, size_ := 0, next_id := 0 }

/-- `size()` (lines 112–115): `return size_.load();`. -/
def AtomicQueue.size {T : Type} (q : AtomicQueue T) : Nat := q.size_

/-- `empty()` (lines 107–110): `return size() == 0;`. -/
def AtomicQueue.empty {T : Type} (q : AtomicQueue T) : Bool := q.size == 0

/-- `old_head->next.store(new_head)`: a store to the `next` field of the node
with id `k` in the explicit heap (no-op on a dangling id). -/
def setNext {T : Type} (nodes : List (Nat × QNode T)) (k : Nat) (v : Option Nat) :
    List (Nat × QNode T) :=
  nodes.map fun p => if p.1 = k then (p.1, { p.2 with next := v }) else p

/-- Dereference a node id in the explicit heap. -/
def lookupNode {T : Type} (nodes : List (Nat × QNode T)) (k : Nat) :
    Option (QNode T) :=
  (nodes.find? fun p => p.1 == k).map Prod.snd

/-- `Push` (node_messaging.h lines 122–133):
`size_.fetch_add(1); Node* new_head = new Node { { nullptr }, move(item) };
Node* old_head = write_head_.load(); if (old_head != nullptr)
old_head->next.store(new_head); Node* null_ptr = nullptr;
read_head_.compare_exchange_strong(null_ptr, new_head);
write_head_.store(new_head);` -/
def AtomicQueue.Push {T : Type} (q : AtomicQueue T) (item : T) : AtomicQueue T :=
  let new_head := q.next_id
  let nodes1 := q.nodes ++ [(new_head, { next := none, item := item })]
  let nodes2 :=
    match q.write_head_ with
    | some old_head => setNext nodes1 old_head (some new_head)
    | none => nodes1
  let read' :=
    match q.read_head_ with
    | none => some new_head
    | some r => some r
  { nodes := nodes2, write_head_ := some new_head, read_head_ := read',
    size_ := q.size_ + 1, next_id := q.next_id + 1 }

/-- `PopIf` (node_messaging.h lines 135–155):
`Node* old_head = read_head_.exchange(nullptr);
if (old_head == nullptr || !pred(old_head->item)) {
  read_head_.exchange(old_head); return false; }
Node* next = old_head->next.load(); Node* null_ptr = nullptr;
read_head_.compare_exchange_strong(null_ptr, next);
if (next == nullptr) { Node* single_entry = old_head;
  write_head_.compare_exchange_strong(single_entry, nullptr); }
if (item != nullptr) *item = std::move(old_head->item);
delete old_head; size_.fetch_sub(1); return true;`
In a sequential execution the read-cursor CAS after the exchange always
succeeds, so it stores `next`.  The returned `Option T` is the popped item
(`none` models returning `false`); a caller that passes a null `item`
pointer simply discards the first component. -/
def AtomicQueue.PopIf {T : Type} (q : AtomicQueue T) (pred : T → Bool) :
    Option T × AtomicQueue T :=
  match q.read_head_ with
  | none => (none, q)
  | some old_head =>
    match lookupNode q.nodes old_head with
    | none => (none, q)
    | some node =>
      if pred node.item then
        let next := node.next
        let write' :=
          if next = none then
            (if q.write_head_ = some old_head then none else q.write_head_)
          else q.write_head_
        (some node.item,
          { nodes := q.nodes.filter fun p => p.1 != old_head,
            write_head_ := write',
            read_head_ := next,
            size_ := q.size_ - 1,
            next_id := q.next_id })
      else (none, q)

/-- `Pop` (lines 157–160): `return PopIf(item, [](const T&) { return true; });` -/
def AtomicQueue.Pop {T : Type} (q : AtomicQueue T) : Option T × AtomicQueue T :=
  q.PopIf fun _ => true

/-- The queue contents, head first, as recorded in the explicit heap. -/
def items {T : Type} (q : AtomicQueue T) : List T :=
  q.nodes.map fun p => p.2.item

/-- Canonical node list for a queue holding `l`, allocated at ids
`start, start+1, …`: consecutive nodes linked by `next`, last node's
`next` null. -/
def mkNodes {T : Type} (start : Nat) : List T → List (Nat × QNode T)
  | [] => []
  | [x] => [(start, { next := none, item := x })]
  | x :: y :: rest =>
    (start, { next := some (start + 1), item := x }) :: mkNodes (start + 1) (y :: rest)

/-- Canonical queue state holding `l` with its oldest node at id `start`.
Every state reachable by sequential `Push` / `PopIf` calls from the empty
queue has this shape (theorem `reachable_mkQueue`). -/
def mkQueue {T : Type} (start : Nat) (l : List T) : AtomicQueue T where
  nodes := mkNodes start l
  write_head_ := if l.isEmpty then none else some (start + l.length - 1)
  read_head_ := if l.isEmpty then none else some start
  size_ := l.length
  next_id := start + l.length

/-- One sequential operation on the queue: a producer `Push` or a consumer
`PopIf`. -/
inductive QOp (T : Type) where
  | push (x : T)
  | popIf (p : T → Bool)

/-- Run a sequence of operations, collecting the successfully popped items
in order. -/
def runOps {T : Type} : AtomicQueue T → List (QOp T) → AtomicQueue T × List T
  | q, [] => (q, [])
  | q, QOp.push x :: rest => runOps (q.Push x) rest
  | q, QOp.popIf p :: rest =>
    match q.PopIf p with
    | (none, q') => runOps q' rest
    | (some x, q') =>
      let r := runOps q' rest
      (r.1, x :: r.2)

/-- The items pushed by a sequence of operations, in push order. -/
def pushedItems {T : Type} : List (QOp T) → List T
  | [] => []
  | QOp.push x :: rest => x :: pushedItems rest
  | QOp.popIf _ :: rest => pushedItems rest

/-- `~AtomicQueue` (node_messaging.h lines 117–120): `while (Pop(nullptr));`.
The destructor pops (and discards, as with a null `item` pointer) every
remaining element; the recursion is well-founded because every successful
`Pop` deletes a node from the heap. -/
def drain {T : Type} (q : AtomicQueue T) : AtomicQueue T :=
  if h : ((q.Pop).1).isNone then q else drain (q.Pop).2
termination_by q.nodes.length
decreasing_by
  unfold AtomicQueue.Pop AtomicQueue.PopIf at h ⊢
  cases hr : q.read_head_ with
  | none => rw [hr] at h; exact absurd rfl h
  | some old_head =>
    rw [hr] at h
    dsimp only at h ⊢
    cases hl : lookupNode q.nodes old_head with
    | none => rw [hl] at h; exact absurd rfl h
    | some node =>
      dsimp only
      rw [if_pos rfl]
      dsimp only
      have hmem : ∃ pr ∈ q.nodes, pr.1 = old_head := by
        unfold lookupNode at hl
        cases hf : q.nodes.find? (fun p => p.1 == old_head) with
        | none => rw [hf] at hl; exact absurd hl (by simp)
        | some pr =>
          refine ⟨pr, List.mem_of_find?_eq_some hf, ?_⟩
          have h2 := List.find?_some hf
          simpa using h2
      obtain ⟨pr, hprmem, hpr⟩ := hmem
      have : ∀ (l : List (Nat × QNode T)), pr ∈ l →
          (l.filter fun p => p.1 != old_head).length < l.length := by
        intro l
        induction l with
        | nil => intro hmem; exact absurd hmem (List.not_mem_nil pr)
        | cons a t ih =>
          intro hmem
          by_cases ha : a.1 = old_head
          · have : (a.1 != old_head) = false := by simp [ha]
            simp only [List.filter_cons, this]
            exact Nat.lt_succ_of_le (List.length_filter_le _ t)
          · have hab : (a.1 != old_head) = true := by simp [ha]
            simp only [List.filter_cons, hab, List.length_cons]
            rcases List.mem_cons.mp hmem with hpa | hpt
            · exact absurd (hpa ▸ hpr) ha
            · exact Nat.succ_lt_succ (ih hpt)
      exact this q.nodes hprmem

/-- Queue states reachable by sequential `Push` and `PopIf` calls from the
default-constructed queue. -/
inductive Reachable {T : Type} : AtomicQueue T → Prop where
  | init : Reachable (AtomicQueue.init T)
  | push {q : AtomicQueue T} {x : T} : Reachable q → Reachable (q.Push x)
  | popIf {q : AtomicQueue T} {p : T → Bool} : Reachable q → Reachable (q.PopIf p).2

/-! The message-port layer.  The member functions of `Message`,
`MessagePortData` and `MessagePort` are only declared in
`node_messaging.h`; their bodies are in `node_messaging.cc`, which is not
among the sources.  The definitions below are therefore modelled from the
specification text (sections 3, 4.2–4.4, 6 and 7), as noted on each. -/

/-- Modelled from the spec: a language value handed to `postMessage` — either
serializable data, a port handle, or something inherently unserializable. -/
inductive JSValue where
  | str (bytes : List Nat)
  | portVal (id : Nat)
  | unserializable
deriving DecidableEq

/-- Modelled from the spec: the `DataCloneError`-class condition raised by
serialization. -/
inductive SerError where
  | dataCloneError
deriving DecidableEq

/-- `Message` payload data (node_messaging.h lines 162–226): an opaque
serialized byte buffer (empty = close sentinel) and the list of transferred
port ids recorded by serialization. -/
structure Message where
  payload : List Nat
  transferredPorts : List Nat
deriving DecidableEq

/-- The close sentinel: a `Message` with an empty payload
(node_messaging.h lines 165–167). -/
def closeMessage : Message := { payload := [], transferredPorts := [] }

/-- Modelled from the spec: `Message::IsCloseMessage` (declared at
node_messaging.h line 177, body in node_messaging.cc) — "true when the
payload is empty". -/
def Message.IsCloseMessage (m : Message) : Bool := m.payload.isEmpty

/-- Modelled from the spec: the external serialization collaborator,
`serialize(value) -> bytes | error`.  Serialized payloads are never empty;
the empty payload is reserved for the close sentinel. -/
def serializeValue : JSValue → Option (List Nat)
  | .str bytes => some (1 :: bytes)
  | .portVal id => some [2, id]
  | .unserializable => none

/-- Modelled from the spec: the external deserialization collaborator,
inverse of `serializeValue` on its range. -/
def deserializeValue : List Nat → JSValue
  | 1 :: bytes => .str bytes
  | 2 :: id :: _ => .portVal id
  | _ => .str []

/-- Modelled from the spec: the per-port state visible to the claims —
the port's own incoming delivery queue (FIFO), the optional sibling link,
whether the port is closed/detached, and whether it is actively
receiving. -/
structure PortDataM where
  incoming : List Message
  sibling : Option Nat
  closed : Bool
  receiving : Bool
deriving DecidableEq

/-- A system of ports, keyed by port id. -/
abbrev PortSys := List (Nat × PortDataM)

/-- Look up a port's state by id. -/
def getPD (sys : PortSys) (i : Nat) : Option PortDataM :=
  (sys.find? fun pr => pr.1 == i).map Prod.snd

/-- Update the state of the port with id `i` (no-op if absent). -/
def setPD (sys : PortSys) (i : Nat) (f : PortDataM → PortDataM) : PortSys :=
  sys.map fun pr => if pr.1 == i then (pr.1, f pr.2) else pr

/-- Modelled from the spec: `MessagePortData::AddToIncomingQueue` (declared
at node_messaging.h line 242) — pushes one envelope onto the port's own
delivery queue. -/
def AddToIncomingQueue (sys : PortSys) (i : Nat) (m : Message) : PortSys :=
  setPD sys i fun d => { d with incoming := d.incoming ++ [m] }

/-- Modelled from the spec: the transfer side effect of serialization —
every port in the transfer list is consumed (detached from its current
owner and moved into the envelope), leaving its queue untouched. -/
def detachPorts (sys : PortSys) (tl : List Nat) : PortSys :=
  sys.map fun pr => if pr.1 ∈ tl then (pr.1, { pr.2 with closed := true }) else pr

/-- Modelled from the spec: `Message::Serialize` (declared at
node_messaging.h lines 189–194, body in node_messaging.cc) — fails with a
`DataCloneError` if the source port appears in the transfer list or the
value is unserializable; a failed serialize has no effect and records no
partial message (the error carries no state).  On success the transfer
side effects are applied and the sealed message is returned. -/
def Message.Serialize (sys : PortSys) (input : JSValue) (transferList : List Nat)
    (sourcePort : Option Nat) : Except SerError (PortSys × Message) :=
  match sourcePort with
  | some p =>
    if p ∈ transferList then .error .dataCloneError
    else
      match serializeValue input with
      | none => .error .dataCloneError
      | some bytes =>
        .ok (detachPorts sys transferList,
          { payload := bytes, transferredPorts := transferList })
  | none =>
    match serializeValue input with
    | none => .error .dataCloneError
    | some bytes =>
      .ok (detachPorts sys transferList,
        { payload := bytes, transferredPorts := transferList })

/-- Modelled from the spec: `MessagePort::PostMessage` (declared at
node_messaging.h lines 296–298) — always serializes first, passing the
posting port itself for the self-transfer cycle check; if the port is
closed, detached, or has no sibling, the sealed message is silently
discarded (no error); otherwise it is delivered to the sibling's incoming
queue. -/
def PostMessage (sys : PortSys) (self : Nat) (input : JSValue)
    (transferList : List Nat) : Except SerError PortSys :=
  match Message.Serialize sys input transferList (some self) with
  | .error e => .error e
  | .ok (sys2, msg) =>
    match getPD sys2 self with
    | none => .ok sys2
    | some pd =>
      if pd.closed then .ok sys2
      else
        match pd.sibling with
        | none => .ok sys2
        | some sib => .ok (AddToIncomingQueue sys2 sib msg)

/-- Whether the port is closed, detached, or has no entangled sibling. -/
def closedOrSiblingless (sys : PortSys) (i : Nat) : Bool :=
  match getPD sys i with
  | none => true
  | some pd => pd.closed || pd.sibling.isNone

/-- The incoming queues of all ports, used to state that an operation makes
nothing receivable anywhere. -/
def incomingsOf (sys : PortSys) : List (Nat × List Message) :=
  sys.map fun pr => (pr.1, pr.2.incoming)

/-- Modelled from the spec: `MessagePortData::Disentangle` (declared at
node_messaging.h line 252, body in node_messaging.cc) — reads the sibling
link; if present, clears the sibling's back link and its own link, then
posts a close sentinel onto the former sibling's queue; otherwise does
nothing. -/
def Disentangle (sys : PortSys) (self : Nat) : PortSys :=
  match getPD sys self with
  | none => sys
  | some pd =>
    match pd.sibling with
    | none => sys
    | some sib =>
      AddToIncomingQueue
        (setPD (setPD sys sib fun d => { d with sibling := none })
          self fun d => { d with sibling := none })
        sib closeMessage

/-- Result of one `receive` poll. -/
inductive RecvResult where
  | message (v : JSValue)
  | noData
  | channelClosed
deriving DecidableEq

/-- Modelled from the spec: `MessagePort::ReceiveMessage` — pops one envelope
from the port's own queue and deserializes it; a close sentinel transitions
the port to permanently closed and stops receiving; a closed or detached
port reports permanent channel closure rather than transient emptiness. -/
def ReceiveMessage (sys : PortSys) (self : Nat) : RecvResult × PortSys :=
  match getPD sys self with
  | none => (.channelClosed, sys)
  | some pd =>
    if pd.closed then (.channelClosed, sys)
    else
      match pd.incoming with
      | [] => (.noData, sys)
      | m :: rest =>
        if m.IsCloseMessage then
          (.channelClosed,
            setPD sys self fun d =>
              { d with incoming := rest, closed := true, receiving := false })
        else
          (.message (deserializeValue m.payload),
            setPD sys self fun d => { d with incoming := rest })

/-- Modelled from the spec: a sealed envelope together with its spent flag —
`deserialize` consumes an envelope exactly once. -/
structure Envelope where
  msg : Message
  spent : Bool
deriving DecidableEq

/-- Result of `deserialize`: the value and the spent envelope, or a loud
programmer-error abort. -/
inductive DeserResult where
  | ok (v : JSValue) (e : Envelope)
  | abort
deriving DecidableEq

/-- Modelled from the spec: `Message::Deserialize` (declared at
node_messaging.h lines 181–182, body in node_messaging.cc) — "may only be
called once"; a second call on a spent envelope is a caller-contract breach
and fails loudly (abort) rather than silently returning stale data. -/
def Envelope.Deserialize (e : Envelope) : DeserResult :=
  if e.spent then .abort
  else .ok (deserializeValue e.msg.payload) { e with spent := true }

/-! Canonical-form lemmas for the queue. -/

theorem items_mkNodes {T : Type} :
    ∀ (l : List T) (s : Nat), (mkNodes s l).map (fun p => p.2.item) = l
  | [], _ => rfl
  | [_], _ => rfl
  | x :: y :: rest, s => by
    simp only [mkNodes, List.map_cons, List.cons.injEq, true_and]
    exact items_mkNodes (y :: rest) (s + 1)

theorem items_mkQueue {T : Type} (s : Nat) (l : List T) :
    items (mkQueue s l) = l :=
  items_mkNodes l s

theorem size_mkQueue {T : Type} (s : Nat) (l : List T) :
    (mkQueue s l).size = l.length := rfl

theorem mkNodes_snoc {T : Type} (x : T) :
    ∀ (l : List T) (s : Nat), l ≠ [] →
      setNext (mkNodes s l ++ [(s + l.length, { next := none, item := x })])
          (s + l.length - 1) (some (s + l.length))
        = mkNodes s (l ++ [x])
  | [], _, h => absurd rfl h
  | [a], s, _ => by
    simp only [mkNodes, List.length_cons, List.length_nil, Nat.zero_add,
      Nat.add_sub_cancel, List.cons_append, List.nil_append, setNext,
      List.map_cons, List.map_nil, if_pos rfl]
    have hne : s + 1 ≠ s := by omega
    rw [if_neg hne]
    simp
  | a :: b :: rest, s, _ => by
    have hne : s ≠ (s + 1) + (b :: rest).length - 1 := by simp; omega
    have harith1 : s + (a :: b :: rest).length = (s + 1) + (b :: rest).length := by
      simp; omega
    calc setNext (mkNodes s (a :: b :: rest) ++
            [(s + (a :: b :: rest).length, { next := none, item := x })])
          (s + (a :: b :: rest).length - 1) (some (s + (a :: b :: rest).length))
        = (s, { next := some (s + 1), item := a }) ::
            setNext (mkNodes (s + 1) (b :: rest) ++
              [((s + 1) + (b :: rest).length, { next := none, item := x })])
              ((s + 1) + (b :: rest).length - 1) (some ((s + 1) + (b :: rest).length)) := by
          rw [mkNodes, harith1]
          simp only [setNext, List.cons_append, List.map_cons, if_neg hne]
      _ = (s, { next := some (s + 1), item := a }) :: mkNodes (s + 1) ((b :: rest) ++ [x]) := by
          rw [mkNodes_snoc x (b :: rest) (s + 1) (by simp)]
      _ = mkNodes s ((a :: b :: rest) ++ [x]) := by
          simp only [List.cons_append, mkNodes, List.append_eq]

theorem Push_mkQueue {T : Type} (s : Nat) (l : List T) (x : T) :
    (mkQueue s l).Push x = mkQueue s (l ++ [x]) := by
  cases l with
  | nil => rfl
  | cons a t =>
    have hlen : ((a :: t) ++ [x]).length = t.length + 2 := by simp
    apply AtomicQueue.ext
    · exact mkNodes_snoc x (a :: t) s (by simp)
    · simp [AtomicQueue.Push, mkQueue, hlen]
    · simp [AtomicQueue.Push, mkQueue]
    · simp [AtomicQueue.Push, mkQueue, hlen]
    · simp [AtomicQueue.Push, mkQueue, hlen]
      omega

theorem filter_mkNodes {T : Type} :
    ∀ (l : List T) (s k : Nat), k < s →
      (mkNodes s l).filter (fun p => p.1 != k) = mkNodes s l
  | [], _, _, _ => rfl
  | [a], s, k, h => by
    have hs : ((s : Nat) != k) = true := by simp; omega
    simp [mkNodes, List.filter_cons, hs]
  | a :: b :: rest, s, k, h => by
    have ih := filter_mkNodes (b :: rest) (s + 1) k (by omega)
    have hs : ((s : Nat) != k) = true := by simp; omega
    simp only [mkNodes, List.filter_cons, hs, if_true, ih]

theorem lookupNode_mkNodes_head {T : Type} (s : Nat) (x : T) (l : List T) :
    lookupNode (mkNodes s (x :: l)) s =
      some { next := if l.isEmpty then none else some (s + 1), item := x } := by
  cases l <;> simp [mkNodes, lookupNode, List.find?_cons]

theorem nodes_mkQueue {T : Type} (s : Nat) (l : List T) :
    (mkQueue s l).nodes = mkNodes s l := rfl

theorem PopIf_mkQueue_nil {T : Type} (s : Nat) (p : T → Bool) :
    (mkQueue s ([] : List T)).PopIf p = (none, mkQueue s []) := rfl

theorem PopIf_mkQueue_cons {T : Type} (s : Nat) (x : T) (l : List T) (p : T → Bool) :
    (mkQueue s (x :: l)).PopIf p =
      if p x then (some x, mkQueue (s + 1) l) else (none, mkQueue s (x :: l)) := by
  have hread : (mkQueue s (x :: l)).read_head_ = some s := by
    simp [mkQueue]
  have hlook := lookupNode_mkNodes_head s x l
  unfold AtomicQueue.PopIf
  rw [hread]
  dsimp only
  rw [nodes_mkQueue, hlook]
  dsimp only
  cases hp : p x with
  | false => simp
  | true =>
    rw [if_pos rfl, if_pos rfl]
    refine congrArg (Prod.mk (some x)) ?_
    apply AtomicQueue.ext
    · show (mkNodes s (x :: l)).filter (fun pr => pr.1 != s) = mkNodes (s + 1) l
      cases l with
      | nil => simp [mkNodes]
      | cons b rest =>
        have hs : ((s : Nat) != s) = false := by simp
        simp only [mkNodes, List.filter_cons, hs, if_false, Bool.false_eq_true]
        exact filter_mkNodes (b :: rest) (s + 1) s (by omega)
    · cases l with
      | nil => simp [mkQueue]
      | cons b rest =>
        have h1 : ((b :: rest) : List T).isEmpty = false := rfl
        simp [mkQueue, h1]
        omega
    · cases l with
      | nil => simp [mkQueue]
      | cons b rest => simp [mkQueue]
    · simp [mkQueue]
    · simp [mkQueue]
      omega

theorem init_eq_mkQueue {T : Type} : AtomicQueue.init T = mkQueue 0 [] := rfl

theorem reachable_mkQueue {T : Type} (q : AtomicQueue T) (h : Reachable q) :
    ∃ s l, q = mkQueue s l := by
  induction h with
  | init => exact ⟨0, [], rfl⟩
  | @push q x _ ih =>
    obtain ⟨s, l, rfl⟩ := ih
    exact ⟨s, l ++ [x], Push_mkQueue s l x⟩
  | @popIf q p _ ih =>
    obtain ⟨s, l, rfl⟩ := ih
    cases l with
    | nil => exact ⟨s, [], by rw [PopIf_mkQueue_nil]⟩
    | cons x t =>
      rw [PopIf_mkQueue_cons]
      cases hp : p x with
      | false => exact ⟨s, x :: t, by rw [if_neg (by simp [hp])]⟩
      | true => exact ⟨s + 1, t, by rw [if_pos (by simp [hp])]⟩

theorem runOps_spec {T : Type} :
    ∀ (ops : List (QOp T)) (s : Nat) (l : List T), ∃ s2 l2 popped,
      runOps (mkQueue s l) ops = (mkQueue s2 l2, popped) ∧
      popped ++ l2 = l ++ pushedItems ops := by
  intro ops
  induction ops with
  | nil => exact fun s l => ⟨s, l, [], rfl, by simp [pushedItems]⟩
  | cons op rest ih =>
    intro s l
    cases op with
    | push x =>
      obtain ⟨s2, l2, popped, h1, h2⟩ := ih s (l ++ [x])
      refine ⟨s2, l2, popped, ?_, ?_⟩
      · show runOps ((mkQueue s l).Push x) rest = _
        rw [Push_mkQueue]
        exact h1
      · rw [h2]
        simp [pushedItems]
    | popIf p =>
      cases l with
      | nil =>
        obtain ⟨s2, l2, popped, h1, h2⟩ := ih s []
        refine ⟨s2, l2, popped, ?_, ?_⟩
        · show (match (mkQueue s ([] : List T)).PopIf p with
            | (none, q') => runOps q' rest
            | (some x, q') =>
              let r := runOps q' rest
              (r.1, x :: r.2)) = _
          rw [PopIf_mkQueue_nil]
          exact h1
        · rw [h2]; simp [pushedItems]
      | cons x t =>
        cases hp : p x with
        | false =>
          obtain ⟨s2, l2, popped, h1, h2⟩ := ih s (x :: t)
          refine ⟨s2, l2, popped, ?_, ?_⟩
          · show (match (mkQueue s (x :: t)).PopIf p with
              | (none, q') => runOps q' rest
              | (some y, q') =>
                let r := runOps q' rest
                (r.1, y :: r.2)) = _
            rw [PopIf_mkQueue_cons, if_neg (by simp [hp])]
            exact h1
          · rw [h2]; simp [pushedItems]
        | true =>
          obtain ⟨s2, l2, popped, h1, h2⟩ := ih (s + 1) t
          refine ⟨s2, l2, x :: popped, ?_, ?_⟩
          · show (match (mkQueue s (x :: t)).PopIf p with
              | (none, q') => runOps q' rest
              | (some y, q') =>
                let r := runOps q' rest
                (r.1, y :: r.2)) = _
            rw [PopIf_mkQueue_cons, if_pos (by simp [hp])]
            dsimp only
            rw [h1]
          · simp only [List.cons_append, pushedItems]
            rw [h2]

theorem drain_of_stop {T : Type} (q : AtomicQueue T) (h : ((q.Pop).1).isNone) :
    drain q = q := by
  unfold drain
  simp [h]

theorem drain_of_go {T : Type} (q : AtomicQueue T) (h : ¬ ((q.Pop).1).isNone) :
    drain q = drain (q.Pop).2 := by
  conv_lhs => unfold drain
  simp [h]

theorem drain_mkQueue {T : Type} :
    ∀ (l : List T) (s : Nat), drain (mkQueue s l) = mkQueue (s + l.length) [] := by
  intro l
  induction l with
  | nil =>
    intro s
    rw [drain_of_stop]
    · simp
    · show (((mkQueue s ([] : List T)).PopIf fun _ => true).1).isNone
      rw [PopIf_mkQueue_nil]
      rfl
  | cons x t ih =>
    intro s
    have hpop : (mkQueue s (x :: t)).Pop = (some x, mkQueue (s + 1) t) := by
      show (mkQueue s (x :: t)).PopIf (fun _ => true) = _
      rw [PopIf_mkQueue_cons, if_pos rfl]
    rw [drain_of_go _ (by rw [hpop]; simp), hpop, ih]
    have : s + 1 + t.length = s + (x :: t).length := by simp; omega
    rw [this]

/-! Claim theorems for the queue. -/

/-- C1: for every sequence of `Push` calls by a single producer and `PopIf`
calls by a single consumer on an `AtomicQueue` (run sequentially from the
empty queue), pops return items in exactly push order — the popped sequence
followed by the remaining contents is exactly the pushed sequence — and in
the quiescent final state `size()` equals the number of pushes minus the
number of successful pops. -/
theorem c1_fifo_and_size {T : Type} (ops : List (QOp T)) :
    (runOps (AtomicQueue.init T) ops).2 ++ items (runOps (AtomicQueue.init T) ops).1
        = pushedItems ops ∧
    ((runOps (AtomicQueue.init T) ops).1).size
        = (pushedItems ops).length - ((runOps (AtomicQueue.init T) ops).2).length := by
  obtain ⟨s2, l2, popped, h1, h2⟩ := runOps_spec ops 0 []
  rw [init_eq_mkQueue, h1]
  dsimp only
  rw [items_mkQueue, size_mkQueue]
  simp only [List.nil_append] at h2
  refine ⟨h2, ?_⟩
  have := congrArg List.length h2
  simp only [List.length_append] at this
  omega

/-- C2 (counterexample): the claim "the read cursor is left unchanged by the
producer: never advanced by `Push`" is false — a `Push` onto the empty
queue installs the new node as the read cursor via the compare-and-swap at
node_messaging.h line 131. -/
theorem c2_counterexample :
    ¬ (((AtomicQueue.init Nat).Push 0).read_head_ = (AtomicQueue.init Nat).read_head_) := by
  decide

/-- C2 (amended): `Push` leaves a non-null read cursor unchanged; only on
the empty-to-nonempty transition (null read cursor) does `Push` install the
new node as the read cursor. -/
theorem c2_push_preserves_nonnull_read_cursor {T : Type} (q : AtomicQueue T) (x : T)
    (h : q.read_head_ ≠ none) : (q.Push x).read_head_ = q.read_head_ := by
  unfold AtomicQueue.Push
  cases hr : q.read_head_ with
  | none => exact absurd hr h
  | some r => simp [hr]

/-- C2 witness: pushing onto a non-empty queue leaves the read cursor where
it was. -/
theorem c2_witness :
    (((AtomicQueue.init Nat).Push 5).Push 7).read_head_
      = ((AtomicQueue.init Nat).Push 5).read_head_ :=
  c2_push_preserves_nonnull_read_cursor ((AtomicQueue.init Nat).Push 5) 7 (by decide)

/-- C5: in every reachable quiescent state, an empty queue (`size() == 0`)
has both the read cursor and the write cursor null — in particular, a pop
that removes the only remaining element resets the write cursor to null, so
the next `Push` does not link its new node to the removed node. -/
theorem c5_empty_queue_null_cursors {T : Type} (q : AtomicQueue T)
    (hr : Reachable q) (h0 : q.size = 0) :
    q.read_head_ = none ∧ q.write_head_ = none := by
  obtain ⟨s, l, rfl⟩ := reachable_mkQueue q hr
  have hl : l = [] := by
    rw [size_mkQueue] at h0
    exact List.length_eq_zero.mp h0
  subst hl
  exact ⟨rfl, rfl⟩

/-- C5 witness: after popping the single remaining element of a reachable
one-element queue, both cursors are null (the write cursor was reset by the
single-node-removal compare-and-swap). -/
theorem c5_witness :
    ((((AtomicQueue.init Nat).Push 1).PopIf fun _ => true)).2.read_head_ = none ∧
    ((((AtomicQueue.init Nat).Push 1).PopIf fun _ => true)).2.write_head_ = none :=
  c5_empty_queue_null_cursors _ (Reachable.popIf (Reachable.push Reachable.init))
    (by decide)

/-- C6: on every reachable state, if the queue is empty or the predicate
fails on the head item, `PopIf` reports failure and returns the state
exactly unchanged (same heap, cursors and size); only if the predicate
holds on the head does it remove and return the head, leaving the tail. -/
theorem c6_popIf_guard {T : Type} (q : AtomicQueue T) (p : T → Bool)
    (hr : Reachable q) :
    ((items q = [] ∨ ∃ x l2, items q = x :: l2 ∧ p x = false) →
      q.PopIf p = (none, q)) ∧
    (∀ x l2, items q = x :: l2 → p x = true →
      (q.PopIf p).1 = some x ∧ items (q.PopIf p).2 = l2 ∧
      ((q.PopIf p).2).size = q.size - 1) := by
  obtain ⟨s, l, rfl⟩ := reachable_mkQueue q hr
  rw [items_mkQueue]
  constructor
  · rintro (hnil | ⟨x, l2, hl, hpx⟩)
    · subst hnil
      exact PopIf_mkQueue_nil s p
    · subst hl
      rw [PopIf_mkQueue_cons, if_neg (by simp [hpx])]
  · intro x l2 hl hpx
    subst hl
    rw [PopIf_mkQueue_cons, if_pos (by simp [hpx])]
    refine ⟨rfl, items_mkQueue (s + 1) l2, ?_⟩
    rw [size_mkQueue, size_mkQueue]
    simp

/-- C6 witness: a failing predicate leaves a one-element queue exactly
unchanged, and a succeeding predicate pops the head. -/
theorem c6_witness :
    ((AtomicQueue.init Nat).Push 5).PopIf (fun _ => false)
        = (none, (AtomicQueue.init Nat).Push 5) ∧
    ((((AtomicQueue.init Nat).Push 5).PopIf (fun _ => true)).1 = some 5 ∧
      items (((AtomicQueue.init Nat).Push 5).PopIf (fun _ => true)).2 = [] ∧
      ((((AtomicQueue.init Nat).Push 5).PopIf (fun _ => true)).2).size
        = ((AtomicQueue.init Nat).Push 5).size - 1) :=
  ⟨(c6_popIf_guard _ _ (Reachable.push Reachable.init)).1
      (Or.inr ⟨5, [], by decide, rfl⟩),
    (c6_popIf_guard _ _ (Reachable.push Reachable.init)).2 5 [] (by decide) rfl⟩

/-- C10: on every reachable state, the destructor's drain loop
(`while (Pop(nullptr));`, which discards each popped value as with a null
output pointer while still removing the head node) terminates — `drain` is
total — and destroys every remaining element: the heap is left empty, the
size is zero and both cursors are null. -/
theorem c10_destructor_drains {T : Type} (q : AtomicQueue T) (hr : Reachable q) :
    (drain q).nodes = [] ∧ (drain q).size = 0 ∧
    (drain q).read_head_ = none ∧ (drain q).write_head_ = none := by
  obtain ⟨s, l, rfl⟩ := reachable_mkQueue q hr
  rw [drain_mkQueue]
  exact ⟨rfl, rfl, rfl, rfl⟩

/-- C10 witness: draining a reachable two-element queue leaves it empty. -/
theorem c10_witness :
    (drain (((AtomicQueue.init Nat).Push 1).Push 2)).nodes = [] ∧
    (drain (((AtomicQueue.init Nat).Push 1).Push 2)).size = 0 ∧
    (drain (((AtomicQueue.init Nat).Push 1).Push 2)).read_head_ = none ∧
    (drain (((AtomicQueue.init Nat).Push 1).Push 2)).write_head_ = none :=
  c10_destructor_drains _ (Reachable.push (Reachable.push Reachable.init))

/-! Helper lemmas for the port layer. -/

theorem getPD_setPD_self :
    ∀ (sys : PortSys) (i : Nat) (f : PortDataM → PortDataM),
      getPD (setPD sys i f) i = (getPD sys i).map f := by
  intro sys i f
  induction sys with
  | nil => rfl
  | cons pr rest ih =>
    by_cases h : pr.1 = i
    · simp [getPD, setPD, List.find?_cons, h]
    · have hb : (pr.1 == i) = false := by simp [h]
      simp only [getPD, setPD, List.map_cons, hb, Bool.false_eq_true, if_false,
        List.find?_cons, hb] at ih ⊢
      exact ih

theorem getPD_setPD_ne (sys : PortSys) (i j : Nat) (f : PortDataM → PortDataM)
    (h : j ≠ i) : getPD (setPD sys i f) j = getPD sys j := by
  induction sys with
  | nil => rfl
  | cons pr rest ih =>
    by_cases hp : pr.1 = i
    · have hb : (pr.1 == i) = true := by simp [hp]
      have hb2 : (pr.1 == j) = false := by simp [hp]; omega
      simp only [getPD, setPD, List.map_cons, hb, if_true, List.find?_cons, hb2] at ih ⊢
      exact ih
    · have hb : (pr.1 == i) = false := by simp [hp]
      by_cases hq : pr.1 = j
      · have hb2 : (pr.1 == j) = true := by simp [hq]
        show getPD ((if pr.1 == i then (pr.1, f pr.2) else pr) :: setPD rest i f) j
            = getPD (pr :: rest) j
        rw [hb]
        simp only [Bool.false_eq_true, if_false]
        simp [getPD, List.find?_cons, hb2]
      · have hb2 : (pr.1 == j) = false := by simp [hq]
        simp only [getPD, setPD, List.map_cons, hb, Bool.false_eq_true, if_false,
          List.find?_cons, hb2] at ih ⊢
        exact ih

theorem getPD_detachPorts_not_mem (sys : PortSys) (tl : List Nat) (i : Nat)
    (h : i ∉ tl) : getPD (detachPorts sys tl) i = getPD sys i := by
  induction sys with
  | nil => rfl
  | cons pr rest ih =>
    by_cases hm : pr.1 ∈ tl
    · have hb : (pr.1 == i) = false := by
        simp only [beq_eq_false_iff_ne, ne_eq]
        intro he
        exact h (he ▸ hm)
      simp only [detachPorts, List.map_cons, if_pos hm, getPD, List.find?_cons, hb] at ih ⊢
      exact ih
    · by_cases hq : pr.1 = i
      · have hb : (pr.1 == i) = true := by simp [hq]
        simp [detachPorts, getPD, List.find?_cons, hm, hb]
      · have hb : (pr.1 == i) = false := by simp [hq]
        simp only [detachPorts, List.map_cons, if_neg hm, getPD, List.find?_cons, hb] at ih ⊢
        exact ih

theorem incomingsOf_detachPorts (sys : PortSys) (tl : List Nat) :
    incomingsOf (detachPorts sys tl) = incomingsOf sys := by
  induction sys with
  | nil => rfl
  | cons pr rest ih =>
    by_cases hm : pr.1 ∈ tl
    · simp only [detachPorts, incomingsOf, List.map_cons, if_pos hm] at ih ⊢
      rw [ih]
    · simp only [detachPorts, incomingsOf, List.map_cons, if_neg hm] at ih ⊢
      rw [ih]

theorem Serialize_ok_inv (sys : PortSys) (input : JSValue) (tl : List Nat)
    (p : Nat) (sys2 : PortSys) (msg : Message)
    (h : Message.Serialize sys input tl (some p) = .ok (sys2, msg)) :
    p ∉ tl ∧ sys2 = detachPorts sys tl := by
  unfold Message.Serialize at h
  dsimp only at h
  by_cases hm : p ∈ tl
  · rw [if_pos hm] at h
    exact absurd h (by simp)
  · rw [if_neg hm] at h
    cases hs : serializeValue input with
    | none => rw [hs] at h; exact absurd h (by simp)
    | some bytes =>
      rw [hs] at h
      simp only [Except.ok.injEq, Prod.mk.injEq] at h
      exact ⟨hm, h.1.symm⟩

/-! Claim theorems for the port layer. -/

/-- C3: posting on a port that is closed, detached or has no entangled
sibling still performs serialization — clone errors are surfaced, and on
success the transfer side effects (consuming the transferred ports) are
applied — but the sealed message is silently discarded: `PostMessage` is
exactly the serialization step with the message dropped, so no error is
reported for the missing recipient, and no port's incoming queue gains
anything (nothing is ever receivable as a result). -/
theorem c3_post_without_recipient_discards (sys : PortSys) (self : Nat)
    (input : JSValue) (tl : List Nat)
    (h : closedOrSiblingless sys self = true) :
    PostMessage sys self input tl
        = Except.map Prod.fst (Message.Serialize sys input tl (some self)) ∧
    incomingsOf (detachPorts sys tl) = incomingsOf sys := by
  refine ⟨?_, incomingsOf_detachPorts sys tl⟩
  unfold PostMessage
  cases hser : Message.Serialize sys input tl (some self) with
  | error e => rfl
  | ok pair =>
    obtain ⟨sys2, msg⟩ := pair
    obtain ⟨hmem, rfl⟩ := Serialize_ok_inv sys input tl self sys2 msg hser
    have hget : getPD (detachPorts sys tl) self = getPD sys self :=
      getPD_detachPorts_not_mem sys tl self hmem
    unfold closedOrSiblingless at h
    dsimp only
    cases hg : getPD sys self with
    | none =>
      rw [hget, hg]
      rfl
    | some pd =>
      rw [hg] at h
      dsimp only at h
      rw [hget, hg]
      dsimp only
      cases hc : pd.closed with
      | true =>
        rw [if_pos rfl]
        rfl
      | false =>
        rw [hc] at h
        simp only [Bool.false_or] at h
        rw [if_neg (by simp)]
        cases hsib : pd.sibling with
        | none => rfl
        | some sib =>
          rw [hsib] at h
          exact absurd h (by simp)

/-- C3 witness: posting on a sibling-less port serializes and silently
discards, leaving every queue unchanged. -/
theorem c3_witness :
    (PostMessage [(0, { incoming := [], sibling := none, closed := false, receiving := false })]
          0 (JSValue.str [7]) []
        = Except.map Prod.fst
            (Message.Serialize
              [(0, { incoming := [], sibling := none, closed := false, receiving := false })]
              (JSValue.str [7]) [] (some 0))) ∧
    incomingsOf (detachPorts
        [(0, { incoming := [], sibling := none, closed := false, receiving := false })] [])
      = incomingsOf
          [(0, { incoming := [], sibling := none, closed := false, receiving := false })] :=
  c3_post_without_recipient_discards
    [(0, { incoming := [], sibling := none, closed := false, receiving := false })]
    0 (JSValue.str [7]) [] (by decide)

/-- C4: serializing with the source port inside the transfer list, or with
an inherently unserializable value, fails with the `DataCloneError`-class
condition, surfaced synchronously (the `Except.error` result carries no
state and no message, so nothing partial is recorded), and a `PostMessage`
built on that serialization reports the same error and delivers nothing. -/
theorem c4_serialize_failure (sys : PortSys) (input : JSValue) (tl : List Nat)
    (p : Nat) (h : p ∈ tl ∨ input = JSValue.unserializable) :
    Message.Serialize sys input tl (some p) = .error .dataCloneError ∧
    PostMessage sys p input tl = .error .dataCloneError := by
  have hser : Message.Serialize sys input tl (some p) = .error .dataCloneError := by
    unfold Message.Serialize
    dsimp only
    by_cases hm : p ∈ tl
    · rw [if_pos hm]
    · rw [if_neg hm]
      rcases h with hmem | hval
      · exact absurd hmem hm
      · rw [hval]
        rfl
  refine ⟨hser, ?_⟩
  unfold PostMessage
  rw [hser]

/-- C4 witness: transferring the sending port within its own transfer list
fails with `DataCloneError` from both `Serialize` and `PostMessage`. -/
theorem c4_witness :
    Message.Serialize
        [(0, { incoming := [], sibling := some 1, closed := false, receiving := true })]
        (JSValue.str []) [0] (some 0)
      = .error .dataCloneError ∧
    PostMessage
        [(0, { incoming := [], sibling := some 1, closed := false, receiving := true })]
        0 (JSValue.str []) [0]
      = .error .dataCloneError :=
  c4_serialize_failure
    [(0, { incoming := [], sibling := some 1, closed := false, receiving := true })]
    (JSValue.str []) [0] 0 (Or.inl (by decide))

theorem Disentangle_of_absent (sys : PortSys) (self : Nat)
    (h : getPD sys self = none) : Disentangle sys self = sys := by
  unfold Disentangle
  rw [h]

theorem Disentangle_of_no_sibling (sys : PortSys) (self : Nat) (pd : PortDataM)
    (hg : getPD sys self = some pd) (hs : pd.sibling = none) :
    Disentangle sys self = sys := by
  unfold Disentangle
  rw [hg]
  dsimp only
  rw [hs]

theorem Disentangle_clears_self_sibling (sys : PortSys) (self : Nat)
    (pd : PortDataM) (hg : getPD sys self = some pd) :
    ∃ pd2, getPD (Disentangle sys self) self = some pd2 ∧ pd2.sibling = none := by
  cases hs : pd.sibling with
  | none =>
    rw [Disentangle_of_no_sibling sys self pd hg hs]
    exact ⟨pd, hg, hs⟩
  | some sib =>
    have hd : Disentangle sys self =
        AddToIncomingQueue
          (setPD (setPD sys sib fun d => { d with sibling := none })
            self fun d => { d with sibling := none })
          sib closeMessage := by
      unfold Disentangle
      rw [hg]
      dsimp only
      rw [hs]
    rw [hd]
    unfold AddToIncomingQueue
    by_cases hss : self = sib
    · subst hss
      rw [getPD_setPD_self, getPD_setPD_self, getPD_setPD_self, hg]
      exact ⟨_, rfl, rfl⟩
    · rw [getPD_setPD_ne _ _ _ _ hss, getPD_setPD_self,
        getPD_setPD_ne _ _ _ _ hss, hg]
      exact ⟨_, rfl, rfl⟩

/-- C7: `Disentangle` is idempotent — the first call leaves the port with no
sibling link, so a second call in sequence finds no sibling and changes
nothing: two calls have exactly the same observable effect as one. -/
theorem c7_disentangle_idempotent (sys : PortSys) (self : Nat) :
    Disentangle (Disentangle sys self) self = Disentangle sys self := by
  cases hg : getPD sys self with
  | none =>
    have h1 := Disentangle_of_absent sys self hg
    rw [h1]
    exact h1
  | some pd =>
    obtain ⟨pd2, hg2, hs2⟩ := Disentangle_clears_self_sibling sys self pd hg
    exact Disentangle_of_no_sibling (Disentangle sys self) self pd2 hg2 hs2

/-- C8: an envelope may be deserialized at most once — a successful
`Deserialize` marks the envelope spent, and a second `Deserialize` on the
resulting envelope fails loudly with the programmer-error abort rather than
silently returning stale data. -/
theorem c8_deserialize_at_most_once (e : Envelope) (v : JSValue) (e2 : Envelope)
    (h : e.Deserialize = DeserResult.ok v e2) :
    e2.Deserialize = DeserResult.abort := by
  unfold Envelope.Deserialize at h ⊢
  by_cases hs : e.spent
  · rw [if_pos hs] at h
    exact absurd h (by simp)
  · rw [if_neg hs] at h
    simp only [DeserResult.ok.injEq] at h
    obtain ⟨_, he⟩ := h
    rw [← he]
    rfl

/-- C8 witness: deserializing a fresh envelope succeeds and spends it; a
second call on the spent envelope aborts. -/
theorem c8_witness :
    Envelope.Deserialize
        { msg := { payload := [1, 5], transferredPorts := [] }, spent := true }
      = DeserResult.abort :=
  c8_deserialize_at_most_once
    { msg := { payload := [1, 5], transferredPorts := [] }, spent := false }
    (JSValue.str [5])
    { msg := { payload := [1, 5], transferredPorts := [] }, spent := true }
    (by decide)

/-- C9: `IsCloseMessage` is true exactly when the message's payload buffer
is empty, and receiving such a close sentinel is terminal: the receiving
port reports channel closure, transitions to permanently closed (receiving
stopped), and every subsequent receive keeps reporting channel closure, so
the sentinel is the last message ever delivered on the port's queue. -/
theorem c9_close_sentinel (m0 : Message) (sys : PortSys) (self : Nat)
    (m : Message) (rest : List Message) (pd : PortDataM)
    (hget : getPD sys self = some pd) (hopen : pd.closed = false)
    (hq : pd.incoming = m :: rest) (hpay : m.payload = []) :
    (Message.IsCloseMessage m0 = true ↔ m0.payload = []) ∧
    (ReceiveMessage sys self).1 = RecvResult.channelClosed ∧
    (ReceiveMessage (ReceiveMessage sys self).2 self).1 = RecvResult.channelClosed := by
  have hiff : ∀ m1 : Message, Message.IsCloseMessage m1 = true ↔ m1.payload = [] := by
    intro m1
    simp [Message.IsCloseMessage, List.isEmpty_iff]
  have hclose : m.IsCloseMessage = true := (hiff m).mpr hpay
  have hrecv : ReceiveMessage sys self =
      (RecvResult.channelClosed,
        setPD sys self fun d =>
          { d with incoming := rest, closed := true, receiving := false }) := by
    unfold ReceiveMessage
    rw [hget]
    dsimp only
    rw [hopen]
    simp only [Bool.false_eq_true, if_false]
    rw [hq]
    dsimp only
    rw [hclose]
    simp only [if_true]
  refine ⟨hiff m0, by rw [hrecv], ?_⟩
  rw [hrecv]
  dsimp only
  unfold ReceiveMessage
  rw [getPD_setPD_self, hget]
  rfl

/-- C9 witness: a close sentinel at the head of a live port's queue closes
the port permanently. -/
theorem c9_witness :
    (Message.IsCloseMessage { payload := [3], transferredPorts := [] } = true
        ↔ ({ payload := [3], transferredPorts := [] } : Message).payload = []) ∧
    (ReceiveMessage [(0, { incoming := [closeMessage], sibling := none, closed := false, receiving := true })] 0).1
      = RecvResult.channelClosed ∧
    (ReceiveMessage (ReceiveMessage [(0, { incoming := [closeMessage], sibling := none, closed := false, receiving := true })] 0).2 0).1
      = RecvResult.channelClosed :=
  c9_close_sentinel { payload := [3], transferredPorts := [] }
    [(0, { incoming := [closeMessage], sibling := none, closed := false, receiving := true })]
    0 closeMessage []
    { incoming := [closeMessage], sibling := none, closed := false, receiving := true }
    (by decide) rfl rfl rfl

end NodeMessaging
